import Mathlib

/-
Verification of the bundle-diff reporter in `src/index.js`
(class `BundleDiffReporter`).

The JavaScript source is shallowly embedded below.  JS numbers are modelled
as exact rationals (ℚ); the only place where IEEE-754 special values can
arise in the source (division by a zero baseline size in
`processChangedFile`) is modelled explicitly, see `percentGE`.  JS objects
used as string-keyed maps are modelled as association lists in insertion
order, with JS assignment semantics (`setKey`: overwrite in place, append
when new).  File-system effects are out of scope: functions receive the data
the source would have read and return the data it would have written.
-/

namespace BundleDiff

/-- Models ECMAScript `Number.prototype.toFixed` rounding of `q` to an
integer: round to nearest, ties away from zero (`toFixed` extracts the sign
and then rounds the magnitude, picking the larger candidate on a tie). -/
def jsRound (q : ℚ) : ℤ :=
  if q < 0 then -(round (-q)) else round q

/-- Models `parseFloat(x.toFixed(2))` from the source: round to two decimal
places. -/
def round2 (q : ℚ) : ℚ :=
  ((jsRound (q * 100) : ℤ) : ℚ) / 100

/-- Helper for `strContains`: does the character list start with `pat`? -/
def startsWithSeq : List Char → List Char → Bool
  | [], _ => true
  | _ :: _, [] => false
  | p :: ps, c :: cs => p = c && startsWithSeq ps cs

/-- Helper for `strContains`: does the character list contain `pat` as a
contiguous run? -/
def containsSeq (pat : List Char) : List Char → Bool
  | [] => startsWithSeq pat []
  | c :: cs => startsWithSeq pat (c :: cs) || containsSeq pat cs

/-- Models JavaScript `fileName.includes(pat)`: substring containment. -/
def strContains (s pat : String) : Bool :=
  containsSeq pat.data s.data

/-- A hexadecimal digit as matched by the character class `[0-9a-f]` under
the regex flag `/i` (case-insensitive). -/
def isHexChar (c : Char) : Bool :=
  c.isDigit || (decide ('a' ≤ c) && decide (c ≤ 'f')) ||
    (decide ('A' ≤ c) && decide (c ≤ 'F'))

/-- Models one application of the anchored regex replacement
`name.replace(/SEP[0-9a-f]{minLen,}\.js$/i, ".js")` from
`generateBundleStats` (line 89 with `SEP = "."`, `minLen = 8`; line 90 with
`SEP = "-"`, `minLen = 10`).  Because the pattern is anchored at the end of
the string and a hex run cannot contain the separator, the regex matches
exactly when the maximal hex run ending right before the trailing `.js`
(case-insensitive) has at least `minLen` characters and is preceded by the
separator; the whole matched suffix is replaced by the literal `.js`. -/
def stripHashSuffix (sep : Char) (minLen : Nat) (s : List Char) : List Char :=
  match s.reverse with
  | c1 :: c2 :: c3 :: rest =>
    if (c1 = 's' ∨ c1 = 'S') ∧ (c2 = 'j' ∨ c2 = 'J') ∧ c3 = '.' then
      match rest.dropWhile isHexChar with
      | d :: tail =>
        if d = sep ∧ minLen ≤ (rest.takeWhile isHexChar).length then
          tail.reverse ++ ['.', 'j', 's']
        else s
      | [] => s
    else s
  | _ => s

/-- Models `name.replace(/\.chunk\.js$/i, ".js")` from `generateBundleStats`
(line 91): strip a literal, case-insensitive `.chunk.js` suffix. -/
def stripChunkSuffix (s : List Char) : List Char :=
  match s.reverse with
  | c1 :: c2 :: c3 :: c4 :: c5 :: c6 :: c7 :: c8 :: c9 :: tail =>
    if (c1 = 's' ∨ c1 = 'S') ∧ (c2 = 'j' ∨ c2 = 'J') ∧ c3 = '.' ∧
        (c4 = 'k' ∨ c4 = 'K') ∧ (c5 = 'n' ∨ c5 = 'N') ∧ (c6 = 'u' ∨ c6 = 'U') ∧
        (c7 = 'h' ∨ c7 = 'H') ∧ (c8 = 'c' ∨ c8 = 'C') ∧ c9 = '.' then
      tail.reverse ++ ['.', 'j', 's']
    else s
  | _ => s

/-- The three chained `.replace` calls of `generateBundleStats`
(lines 88-91), on character lists. -/
def normalizeChars (s : List Char) : List Char :=
  stripChunkSuffix (stripHashSuffix '-' 10 (stripHashSuffix '.' 8 s))

/-- The filename normalization of `generateBundleStats` (lines 88-91):
content hash, then chunk hash, then `.chunk.js` stripping, in order. -/
def normalizeName (s : String) : String :=
  String.mk (normalizeChars s.data)

/-- Models the size computation of `generateBundleStats` (line 94):
`parseFloat((bytes / 1024).toFixed(2))`. -/
def kbSize (bytes : Nat) : ℚ :=
  round2 ((bytes : ℚ) / 1024)

/-- A `{ size: number }` value of the stats JSON (`BundleEntry` in the
spec). -/
structure BundleEntry where
  size : ℚ
  deriving DecidableEq

/-- First value stored under key `k`, i.e. JS property read `m[k]`. -/
def lookupKey {α : Type} (m : List (String × α)) (k : String) : Option α :=
  (m.find? (fun p => decide (p.1 = k))).map (fun p => p.2)

/-- Does the map have key `k` (JS `k in m`, or truthiness of `m[k]` for
object-valued entries)? -/
def hasKey {α : Type} (m : List (String × α)) (k : String) : Bool :=
  (lookupKey m k).isSome

/-- JS property assignment `m[k] = v` on an object used as a map: an
existing key keeps its insertion position and gets the new value, a new key
is appended at the end. -/
def setKey {α : Type} (m : List (String × α)) (k : String) (v : α) : List (String × α) :=
  if m.any (fun p => decide (p.1 = k)) then
    m.map (fun p => if p.1 = k then (k, v) else p)
  else m ++ [(k, v)]

/-- Models the `forEach` loop of `generateBundleStats` (lines 86-97): the
input is the list of direct-child `.js` files of the build folder in
processing order, paired with their byte sizes; each file is stored under
its normalized name with its rounded KB size, later files overwriting
earlier ones that normalize to the same key. -/
def buildStats (files : List (String × Nat)) : List (String × BundleEntry) :=
  files.foldl (fun acc p => setKey acc (normalizeName p.1) (BundleEntry.mk (kbSize p.2))) []

/-- Stable insertion (descending by `key`) used to model
`Array.prototype.sort` with comparator `(a, b) => key(b) - key(a)`:
JS sort is stable and puts `a` before `b` exactly when `key b < key a`
(ties keep the original order). -/
def insertDescBy {α : Type} (key : α → ℚ) (x : α) : List α → List α
  | [] => [x]
  | y :: ys => if key y ≤ key x then x :: y :: ys else y :: insertDescBy key x ys

/-- Stable sort, descending by `key` (see `insertDescBy`). -/
def sortDescBy {α : Type} (key : α → ℚ) (l : List α) : List α :=
  l.foldr (insertDescBy key) []

/-- Models `generateBundleStats` (lines 75-124) as a data transformation:
build the normalized name → size map, then sort its entries by descending
size (lines 104-110); this sorted mapping is what is serialized to the
current stats JSON file. -/
def generateBundleStats (files : List (String × Nat)) : List (String × BundleEntry) :=
  sortDescBy (fun p => p.2.size) (buildStats files)

/-- The `options` argument of the constructor (lines 39-52); a missing field
is JS `undefined`, modelled as `none`. -/
structure Options where
  buildFolder : Option String := none
  outputFolder : Option String := none
  changeThreshold : Option ℚ := none
  splittingUpperLimit : Option ℚ := none
  splittingLowerLimit : Option ℚ := none
  masterFile : Option String := none
  currentFile : Option String := none
  outputFile : Option String := none
  failureFile : Option String := none
  aboveAverageFiles : Option (List String) := none
  belowAverageFiles : Option (List String) := none

/-- The resolved `this.config` object. -/
structure Config where
  buildFolder : String
  outputFolder : String
  changeThreshold : ℚ
  splittingUpperLimit : ℚ
  splittingLowerLimit : ℚ
  masterFile : String
  currentFile : String
  outputFile : String
  failureFile : String
  aboveAverageFiles : List String
  belowAverageFiles : List String

/-- JS `options.x || default` for a numeric option: `undefined` and the
falsy number `0` both select the default (NaN, the only other falsy number,
cannot be written as a rational literal and is not representable here). -/
def resolveNum (o : Option ℚ) (d : ℚ) : ℚ :=
  match o with
  | none => d
  | some v => if v = 0 then d else v

/-- JS `options.x || default` for a string option: `undefined` and the
empty string (the only falsy string) select the default. -/
def resolveStr (o : Option String) (d : String) : String :=
  match o with
  | none => d
  | some s => if s = "" then d else s

/-- JS `options.x || []` for the allowlist options. -/
def resolveList (o : Option (List String)) : List String :=
  match o with
  | none => []
  | some l => l

/-- The constructor body (lines 39-52): every config field is
`options.field || default`. -/
def mkConfig (options : Options) : Config where
  buildFolder := resolveStr options.buildFolder "dist"
  outputFolder := resolveStr options.outputFolder "bundle-analyzer"
  changeThreshold := resolveNum options.changeThreshold 5
  splittingUpperLimit := resolveNum options.splittingUpperLimit 250
  splittingLowerLimit := resolveNum options.splittingLowerLimit 20
  masterFile := resolveStr options.masterFile "master-bundle-stats.json"
  currentFile := resolveStr options.currentFile "current-bundle-stats.json"
  outputFile := resolveStr options.outputFile "bundle-size-report.md"
  failureFile := resolveStr options.failureFile "bundle-diff-stage-failed.txt"
  aboveAverageFiles := resolveList options.aboveAverageFiles
  belowAverageFiles := resolveList options.belowAverageFiles

/-- A value of `diff.changed[file]` (line 305-309). -/
structure ChangedEntry where
  current : ℚ
  master : ℚ
  difference : ℚ
  deriving DecidableEq

/-- The `diff.summary` object. -/
structure Summary where
  totalAdded : ℚ
  totalRemoved : ℚ
  sizeIncrease : ℚ
  sizeDecrease : ℚ
  countChanged : Nat
  deriving DecidableEq

/-- The `diff` object produced by `compareBundleSizes`; `same` maps a
filename to the bare current size (line 318). -/
structure Diff where
  added : List (String × BundleEntry)
  removed : List (String × BundleEntry)
  changed : List (String × ChangedEntry)
  same : List (String × ℚ)
  summary : Summary
  deriving DecidableEq

/-- `initializeDiff` (lines 264-278). -/
def initializeDiff : Diff where
  added := []
  removed := []
  changed := []
  same := []
  summary := { totalAdded := 0, totalRemoved := 0, sizeIncrease := 0
               sizeDecrease := 0, countChanged := 0 }

/-- Models `Math.abs((sizeDiff / masterSize) * 100) >= changeThreshold`
from `processChangedFile` (lines 302-304), including the IEEE-754 behaviour
of the division when `masterSize` is zero: in JS, `x / 0` is `±Infinity`
for `x ≠ 0`, whose absolute value satisfies `>=` against every finite
threshold, and `0 / 0` is `NaN`, for which every `>=` comparison is false.
For a nonzero denominator the arithmetic is modelled exactly over ℚ. -/
def percentGE (masterSize sizeDiff threshold : ℚ) : Bool :=
  if masterSize = 0 then decide (sizeDiff ≠ 0)
  else decide (threshold ≤ |sizeDiff / masterSize * 100|)

/-- `addNewFile` (lines 295-298). -/
def addNewFile (d : Diff) (file : String) (fileData : BundleEntry) : Diff :=
  { d with
    added := d.added ++ [(file, fileData)]
    summary := { d.summary with totalAdded := d.summary.totalAdded + fileData.size } }

/-- `processChangedFile` (lines 300-320). -/
def processChangedFile (cfg : Config) (d : Diff) (file : String)
    (currentData masterData : BundleEntry) : Diff :=
  let sizeDiff := currentData.size - masterData.size
  if percentGE masterData.size sizeDiff cfg.changeThreshold then
    { d with
      changed := d.changed ++
        [(file, ChangedEntry.mk currentData.size masterData.size (round2 sizeDiff))]
      summary := { d.summary with
        countChanged := d.summary.countChanged + 1
        sizeIncrease :=
          if 0 < sizeDiff then d.summary.sizeIncrease + sizeDiff
          else d.summary.sizeIncrease
        sizeDecrease :=
          if 0 < sizeDiff then d.summary.sizeDecrease
          else d.summary.sizeDecrease + |sizeDiff| } }
  else
    { d with same := d.same ++ [(file, currentData.size)] }

/-- `sortChangedFiles` (lines 322-329): stable sort of the changed entries
by descending `difference` (comparator `(a, b) => b.difference -
a.difference`). -/
def sortChangedFiles (changedFiles : List (String × ChangedEntry)) :
    List (String × ChangedEntry) :=
  sortDescBy (fun p => p.2.difference) changedFiles

/-- Loop body of the `forEach` in `processAddedAndChangedFiles`
(lines 281-287): a current-branch entry is new when `!master[file]`
(absent key; present entries are `{ size }` objects, always truthy). -/
def processOneCurrentFile (cfg : Config) (master : List (String × BundleEntry))
    (d : Diff) (p : String × BundleEntry) : Diff :=
  match lookupKey master p.1 with
  | none => addNewFile d p.1 p.2
  | some m => processChangedFile cfg d p.1 p.2 m

/-- `processAddedAndChangedFiles` (lines 280-293): walk the current map in
insertion order, then sort `changed` when it is nonempty (the JS guard is
the truthiness of `Object.keys(diff.changed).length`). -/
def processAddedAndChangedFiles (cfg : Config)
    (master current : List (String × BundleEntry)) (d : Diff) : Diff :=
  let d2 := current.foldl (processOneCurrentFile cfg master) d
  if d2.changed.length = 0 then d2
  else { d2 with changed := sortChangedFiles d2.changed }

/-- Loop body of the `forEach` in `processRemovedFiles` (lines 332-337): a
master-branch entry is removed when `!current[file]` (absent key). -/
def processOneMasterFile (current : List (String × BundleEntry))
    (d : Diff) (p : String × BundleEntry) : Diff :=
  match lookupKey current p.1 with
  | none =>
    { d with
      removed := d.removed ++ [p]
      summary := { d.summary with
        totalRemoved := d.summary.totalRemoved + p.2.size } }
  | some _ => d

/-- `processRemovedFiles` (lines 331-338). -/
def processRemovedFiles (master current : List (String × BundleEntry))
    (d : Diff) : Diff :=
  master.foldl (processOneMasterFile current) d

/-- `finalizeDiff` (lines 340-348): round the four size totals to two
decimals. -/
def finalizeDiff (d : Diff) : Diff :=
  { d with summary :=
    { totalAdded := round2 d.summary.totalAdded
      totalRemoved := round2 d.summary.totalRemoved
      sizeIncrease := round2 d.summary.sizeIncrease
      sizeDecrease := round2 d.summary.sizeDecrease
      countChanged := d.summary.countChanged } }

/-- `compareBundleSizes` (lines 173-206), with the file reads abstracted:
`master` and `current` are the two parsed stats mappings. -/
def compareBundleSizes (cfg : Config)
    (master current : List (String × BundleEntry)) : Diff :=
  finalizeDiff
    (processRemovedFiles master current
      (processAddedAndChangedFiles cfg master current initializeDiff))

/-- `extractFileSizes` (lines 354-366): the object spread
`{ ...addedFiles, ...changedFiles }` assigns all added entries (value
`size`) and then all changed entries (value `current`) into a fresh
object. -/
def extractFileSizes (d : Diff) : List (String × ℚ) :=
  ((d.added.map (fun p => (p.1, p.2.size))) ++
    (d.changed.map (fun p => (p.1, p.2.current)))).foldl
    (fun acc p => setKey acc p.1 p.2) []

/-- `isAboveAverageFile` (lines 368-373). -/
def isAboveAverageFile (cfg : Config) (fileName : String) (fileSize : ℚ) : Bool :=
  decide (cfg.splittingUpperLimit < fileSize) &&
    !(cfg.aboveAverageFiles.any (fun n => decide (n = fileName)))

/-- `isBelowAverageFile` (lines 375-381). -/
def isBelowAverageFile (cfg : Config) (fileName : String) (fileSize : ℚ) : Bool :=
  decide (fileSize < cfg.splittingLowerLimit) &&
    !(cfg.belowAverageFiles.any (fun n => decide (n = fileName))) &&
    !(strContains fileName "resolver")

/-- An element of the two failed-file arrays. -/
structure FailedFile where
  fileName : String
  fileSize : ℚ
  deriving DecidableEq

/-- The result of `checkFileSize`. -/
structure FailedFiles where
  aboveAverageFiles : List FailedFile
  belowAverageFiles : List FailedFile
  deriving DecidableEq

/-- Loop body of the `forEach` in `checkFileSize` (lines 218-224): the
above-average test is tried first, the below-average test only in its
`else` branch. -/
def checkOneFile (cfg : Config) (acc : FailedFiles) (p : String × ℚ) : FailedFiles :=
  if isAboveAverageFile cfg p.1 p.2 then
    { acc with aboveAverageFiles := acc.aboveAverageFiles ++ [FailedFile.mk p.1 p.2] }
  else if isBelowAverageFile cfg p.1 p.2 then
    { acc with belowAverageFiles := acc.belowAverageFiles ++ [FailedFile.mk p.1 p.2] }
  else acc

/-- `checkFileSize` (lines 213-227). -/
def checkFileSize (cfg : Config) (d : Diff) : FailedFiles :=
  (extractFileSizes d).foldl (checkOneFile cfg) (FailedFiles.mk [] [])

/-- `isSuccess` (lines 383-388). -/
def isSuccess (ff : FailedFiles) : Bool :=
  decide (ff.belowAverageFiles.length = 0) && decide (ff.aboveAverageFiles.length = 0)

/-- `writeFailureFlag` (lines 390-402), modelled as the file-system effect
it performs: `some (name, content)` when the marker file is written, `none`
when nothing is written.  The marker is written exactly when `isSuccess` is
false; the content is a fixed diagnostic sentence (its emoji prefix is
irrelevant to every claim and omitted). -/
def writeFailureFlag (cfg : Config) (ff : FailedFiles) : Option (String × String) :=
  if isSuccess ff then none
  else some (cfg.failureFile, "Failed to pass bundle size check")

/-- The per-file decision of `processChangedFile`, packaged as an optional
`changed` entry; `processOneCurrentFile` appends exactly this to
`diff.changed`. -/
def changedDecision (cfg : Config) (master : List (String × BundleEntry))
    (p : String × BundleEntry) : Option (String × ChangedEntry) :=
  match lookupKey master p.1 with
  | none => none
  | some m =>
    if percentGE m.size (p.2.size - m.size) cfg.changeThreshold then
      some (p.1, ChangedEntry.mk p.2.size m.size (round2 (p.2.size - m.size)))
    else none

/-- The per-file decision of `processChangedFile` for the `same` bucket. -/
def sameDecision (cfg : Config) (master : List (String × BundleEntry))
    (p : String × BundleEntry) : Option (String × ℚ) :=
  match lookupKey master p.1 with
  | none => none
  | some m =>
    if percentGE m.size (p.2.size - m.size) cfg.changeThreshold then none
    else some (p.1, p.2.size)

/-- The configuration of `new BundleDiffReporter({})`: every option takes
its default. -/
def cfgDefault : Config := mkConfig {}

/-- The ordering the spec asserts for the `changed` mapping, modelled from
the spec words (descending absolute `difference`), for comparison with the
implementation. -/
def sortedByAbsDifferenceDesc (l : List (String × ChangedEntry)) : Prop :=
  l.Pairwise (fun a b => |b.2.difference| ≤ |a.2.difference|)

/-- Concrete baseline map used by witnesses. -/
def masterEx : List (String × BundleEntry) :=
  [("a.js", BundleEntry.mk 100), ("b.js", BundleEntry.mk 50)]

/-- Concrete current map used by witnesses. -/
def currentEx : List (String × BundleEntry) :=
  [("a.js", BundleEntry.mk 106), ("c.js", BundleEntry.mk 300)]

/-- A concrete diff with a single added 300 KB file, used by witnesses. -/
def diffEx : Diff :=
  { added := [("c.js", BundleEntry.mk 300)]
    removed := []
    changed := []
    same := []
    summary := { totalAdded := 300, totalRemoved := 0, sizeIncrease := 0
                 sizeDecrease := 0, countChanged := 0 } }

/-! ### Association-list lemmas -/

theorem lookupKey_nil {α : Type} (k : String) :
    lookupKey ([] : List (String × α)) k = none := rfl

theorem lookupKey_cons {α : Type} (p : String × α) (m : List (String × α)) (k : String) :
    lookupKey (p :: m) k = if p.1 = k then some p.2 else lookupKey m k := by
  by_cases h : p.1 = k <;> simp [lookupKey, List.find?_cons, h]

theorem lookupKey_append {α : Type} (m1 m2 : List (String × α)) (k : String) :
    lookupKey (m1 ++ m2) k = (lookupKey m1 k).or (lookupKey m2 k) := by
  simp only [lookupKey, List.find?_append]
  cases m1.find? (fun p => decide (p.1 = k)) <;> simp [Option.or]

theorem hasKey_nil {α : Type} (k : String) :
    hasKey ([] : List (String × α)) k = false := rfl

theorem hasKey_cons {α : Type} (p : String × α) (m : List (String × α)) (k : String) :
    hasKey (p :: m) k = (decide (p.1 = k) || hasKey m k) := by
  by_cases h : p.1 = k <;> simp [hasKey, lookupKey_cons, h]

theorem hasKey_append {α : Type} (m1 m2 : List (String × α)) (k : String) :
    hasKey (m1 ++ m2) k = (hasKey m1 k || hasKey m2 k) := by
  simp only [hasKey, lookupKey_append]
  cases lookupKey m1 k <;> simp [Option.or]

theorem any_eq_hasKey {α : Type} (m : List (String × α)) (k : String) :
    (m.any fun p => decide (p.1 = k)) = hasKey m k := by
  induction m with
  | nil => rfl
  | cons p m ih => simp [List.any_cons, hasKey_cons, ih]

theorem lookupKey_eq_none_of_hasKey_false {α : Type} (m : List (String × α)) (k : String)
    (h : hasKey m k = false) : lookupKey m k = none := by
  unfold hasKey at h
  cases hl : lookupKey m k with
  | none => rfl
  | some v => rw [hl] at h; simp at h

theorem lookupKey_map_subst {α : Type} (m : List (String × α)) (k k2 : String) (v : α) :
    lookupKey (m.map fun p => if p.1 = k then (k, v) else p) k2 =
      if k2 = k then (if hasKey m k then some v else none) else lookupKey m k2 := by
  induction m with
  | nil => by_cases hk : k2 = k <;> simp [hk, lookupKey_nil, hasKey_nil]
  | cons p m ih =>
    by_cases hp : p.1 = k
    · by_cases hk : k2 = k
      · subst hk
        simp [List.map_cons, lookupKey_cons, hasKey_cons, hp]
      · have hk2 : ¬ k = k2 := fun h => hk h.symm
        simp [List.map_cons, lookupKey_cons, hasKey_cons, hp, hk, hk2, ih]
    · by_cases hpk2 : p.1 = k2
      · have hk : ¬ k2 = k := fun h => hp (hpk2.trans h)
        simp [List.map_cons, lookupKey_cons, hasKey_cons, hp, hpk2, hk]
      · simp [List.map_cons, lookupKey_cons, hasKey_cons, hp, hpk2, ih]

theorem lookupKey_setKey {α : Type} (m : List (String × α)) (k k2 : String) (v : α) :
    lookupKey (setKey m k v) k2 = if k2 = k then some v else lookupKey m k2 := by
  unfold setKey
  rw [any_eq_hasKey]
  by_cases h : hasKey m k = true
  · rw [if_pos h, lookupKey_map_subst]
    simp [h]
  · rw [if_neg h]
    rw [lookupKey_append]
    by_cases hk : k2 = k
    · subst hk
      rw [lookupKey_eq_none_of_hasKey_false m k2 (by simpa using h)]
      simp [lookupKey_cons, Option.or]
    · have hk2 : ¬ k = k2 := fun h => hk h.symm
      cases hl : lookupKey m k2 with
      | some w => simp [hl, Option.or, hk]
      | none => simp [hl, Option.or, lookupKey_cons, lookupKey_nil, hk, hk2]

theorem hasKey_setKey {α : Type} (m : List (String × α)) (k k2 : String) (v : α) :
    hasKey (setKey m k v) k2 = (decide (k2 = k) || hasKey m k2) := by
  by_cases hk : k2 = k <;> simp [hasKey, lookupKey_setKey, hk]

theorem lookupKey_foldl_setKey {α β : Type} (kf : α → String) (vf : α → β)
    (l : List α) (acc : List (String × β)) (k : String) :
    lookupKey (l.foldl (fun m x => setKey m (kf x) (vf x)) acc) k =
      ((l.reverse.find? fun x => decide (kf x = k)).map vf).or (lookupKey acc k) := by
  induction l generalizing acc with
  | nil => simp [Option.or]
  | cons x xs ih =>
    rw [List.foldl_cons, ih, List.reverse_cons, List.find?_append]
    by_cases hx : kf x = k
    · subst hx
      cases hf : xs.reverse.find? (fun y => decide (kf y = kf x)) with
      | some y => simp [hf, Option.or]
      | none => simp [hf, Option.or, lookupKey_setKey, List.find?_cons]
    · have hx2 : ¬ k = kf x := fun h => hx h.symm
      cases hf : xs.reverse.find? (fun x => decide (kf x = k)) with
      | some y => simp [hf, Option.or]
      | none => simp [hf, Option.or, lookupKey_setKey, hx, hx2, List.find?_cons]

/-! ### Sorting lemmas -/

theorem perm_insertDescBy {α : Type} (key : α → ℚ) (x : α) (l : List α) :
    (insertDescBy key x l).Perm (x :: l) := by
  induction l with
  | nil => exact List.Perm.refl _
  | cons y ys ih =>
    unfold insertDescBy
    split
    · exact List.Perm.refl _
    · exact (List.Perm.cons y ih).trans (List.Perm.swap x y ys)

theorem perm_sortDescBy {α : Type} (key : α → ℚ) (l : List α) :
    (sortDescBy key l).Perm l := by
  induction l with
  | nil => exact List.Perm.refl _
  | cons x xs ih =>
    exact (perm_insertDescBy key x (sortDescBy key xs)).trans (List.Perm.cons x ih)

theorem pairwise_insertDescBy {α : Type} (key : α → ℚ) (x : α) (l : List α)
    (h : l.Pairwise (fun a b => key b ≤ key a)) :
    (insertDescBy key x l).Pairwise (fun a b => key b ≤ key a) := by
  induction l with
  | nil => simp [insertDescBy]
  | cons y ys ih =>
    rw [List.pairwise_cons] at h
    obtain ⟨hy, hys⟩ := h
    unfold insertDescBy
    split
    case isTrue hle =>
      rw [List.pairwise_cons]
      refine ⟨?_, List.pairwise_cons.mpr ⟨hy, hys⟩⟩
      intro a ha
      rcases List.mem_cons.mp ha with rfl | ha
      · exact hle
      · exact le_trans (hy a ha) hle
    case isFalse hgt =>
      rw [List.pairwise_cons]
      refine ⟨?_, ih hys⟩
      intro a ha
      have hmem := (perm_insertDescBy key x ys).mem_iff.mp ha
      rcases List.mem_cons.mp hmem with rfl | ha2
      · exact le_of_lt (lt_of_not_le hgt)
      · exact hy a ha2

theorem pairwise_sortDescBy {α : Type} (key : α → ℚ) (l : List α) :
    (sortDescBy key l).Pairwise (fun a b => key b ≤ key a) := by
  induction l with
  | nil => simp [sortDescBy]
  | cons x xs ih => exact pairwise_insertDescBy key x (sortDescBy key xs) ih

/-! ### Key-uniqueness and permutation transfer -/

theorem hasKey_iff_mem_keys {α : Type} (m : List (String × α)) (k : String) :
    hasKey m k = true ↔ k ∈ m.map Prod.fst := by
  induction m with
  | nil => simp [hasKey_nil]
  | cons p m ih =>
    rw [hasKey_cons]
    simp only [List.map_cons, List.mem_cons, Bool.or_eq_true, decide_eq_true_eq, ih]
    constructor
    · rintro (h | h)
      · exact Or.inl h.symm
      · exact Or.inr h
    · rintro (h | h)
      · exact Or.inl h.symm
      · exact Or.inr h

theorem keys_setKey_of_hasKey {α : Type} (m : List (String × α)) (k : String) (v : α)
    (h : hasKey m k = true) : (setKey m k v).map Prod.fst = m.map Prod.fst := by
  unfold setKey
  rw [any_eq_hasKey, if_pos h, List.map_map]
  apply List.map_congr_left
  intro p _
  by_cases hp : p.1 = k <;> simp [hp]

theorem keys_setKey_of_not_hasKey {α : Type} (m : List (String × α)) (k : String) (v : α)
    (h : hasKey m k = false) : (setKey m k v).map Prod.fst = m.map Prod.fst ++ [k] := by
  unfold setKey
  rw [any_eq_hasKey, h]
  simp

theorem nodup_keys_setKey {α : Type} (m : List (String × α)) (k : String) (v : α)
    (h : (m.map Prod.fst).Nodup) : ((setKey m k v).map Prod.fst).Nodup := by
  by_cases hk : hasKey m k = true
  · rw [keys_setKey_of_hasKey m k v hk]; exact h
  · rw [keys_setKey_of_not_hasKey m k v (by simpa using hk)]
    rw [List.nodup_append]
    refine ⟨h, List.nodup_singleton k, ?_⟩
    intro a ha hmem
    rcases List.mem_singleton.mp hmem with rfl
    exact hk ((hasKey_iff_mem_keys m a).mpr ha)

theorem nodup_keys_foldl_setKey {α β : Type} (kf : α → String) (vf : α → β)
    (l : List α) (acc : List (String × β)) (h : (acc.map Prod.fst).Nodup) :
    (((l.foldl (fun m x => setKey m (kf x) (vf x)) acc)).map Prod.fst).Nodup := by
  induction l generalizing acc with
  | nil => exact h
  | cons x xs ih => exact ih _ (nodup_keys_setKey _ _ _ h)

theorem lookupKey_eq_some_mem {α : Type} {m : List (String × α)} {k : String} {v : α}
    (h : lookupKey m k = some v) : (k, v) ∈ m := by
  unfold lookupKey at h
  cases hf : m.find? (fun p => decide (p.1 = k)) with
  | none => rw [hf] at h; simp at h
  | some p =>
    rw [hf] at h
    simp at h
    have hm := List.mem_of_find?_eq_some hf
    have hk := List.find?_some hf
    rcases p with ⟨a, b⟩
    simp only [decide_eq_true_eq] at hk
    subst hk
    subst h
    exact hm

theorem mem_lookupKey_of_nodup {α : Type} {m : List (String × α)} {k : String} {v : α}
    (hn : (m.map Prod.fst).Nodup) (h : (k, v) ∈ m) : lookupKey m k = some v := by
  induction m with
  | nil => cases h
  | cons p m ih =>
    rw [List.map_cons, List.nodup_cons] at hn
    obtain ⟨hp, hn⟩ := hn
    rcases List.mem_cons.mp h with rfl | h2
    · simp [lookupKey_cons]
    · have hk : ¬ p.1 = k := by
        intro he
        exact hp (he ▸ (List.mem_map_of_mem Prod.fst h2))
      rw [lookupKey_cons, if_neg hk]
      exact ih hn h2

theorem lookupKey_eq_of_perm {α : Type} {m m2 : List (String × α)} (hperm : m.Perm m2)
    (hn : (m.map Prod.fst).Nodup) (k : String) : lookupKey m k = lookupKey m2 k := by
  have hn2 : (m2.map Prod.fst).Nodup := (hperm.map Prod.fst).nodup hn
  cases hl : lookupKey m k with
  | some v =>
    exact (mem_lookupKey_of_nodup hn2 (hperm.mem_iff.mp (lookupKey_eq_some_mem hl))).symm
  | none =>
    cases hl2 : lookupKey m2 k with
    | none => rfl
    | some v =>
      have hm := hperm.mem_iff.mpr (lookupKey_eq_some_mem hl2)
      have h3 := mem_lookupKey_of_nodup hn hm
      rw [hl] at h3
      exact Option.noConfusion h3

theorem hasKey_iff_exists {α : Type} (m : List (String × α)) (k : String) :
    hasKey m k = true ↔ ∃ v, (k, v) ∈ m := by
  constructor
  · intro h
    unfold hasKey at h
    cases hl : lookupKey m k with
    | none => rw [hl] at h; simp at h
    | some v => exact ⟨v, lookupKey_eq_some_mem hl⟩
  · rintro ⟨v, hv⟩
    exact (hasKey_iff_mem_keys m k).mpr (List.mem_map_of_mem Prod.fst hv)

theorem hasKey_eq_of_perm {α : Type} {m m2 : List (String × α)} (h : m.Perm m2)
    (k : String) : hasKey m k = hasKey m2 k := by
  by_cases hk : hasKey m k = true
  · obtain ⟨v, hv⟩ := (hasKey_iff_exists m k).mp hk
    rw [hk, ((hasKey_iff_exists m2 k).mpr ⟨v, h.mem_iff.mp hv⟩)]
  · have hk2 : ¬ hasKey m2 k = true := fun hh => by
      obtain ⟨v, hv⟩ := (hasKey_iff_exists m2 k).mp hh
      exact hk ((hasKey_iff_exists m k).mpr ⟨v, h.mem_iff.mpr hv⟩)
    rw [Bool.not_eq_true] at hk hk2
    rw [hk, hk2]

theorem key_unique_of_nodup {α : Type} {l : List (String × α)}
    (hn : (l.map Prod.fst).Nodup) {p1 p2 : String × α}
    (h1 : p1 ∈ l) (h2 : p2 ∈ l) (hk : p1.1 = p2.1) : p1 = p2 := by
  induction l with
  | nil => cases h1
  | cons q l ih =>
    rw [List.map_cons, List.nodup_cons] at hn
    obtain ⟨hq, hn⟩ := hn
    rcases List.mem_cons.mp h1 with rfl | h1m
    · rcases List.mem_cons.mp h2 with rfl | h2m
      · rfl
      · exact absurd (hk ▸ (List.mem_map_of_mem Prod.fst h2m)) hq
    · rcases List.mem_cons.mp h2 with rfl | h2m
      · exact absurd (hk ▸ (List.mem_map_of_mem Prod.fst h1m)) hq
      · exact ih hn h1m h2m

/-! ### Bucket characterizations of the diff pipeline -/

theorem processOne_added (cfg : Config) (master : List (String × BundleEntry))
    (d : Diff) (p : String × BundleEntry) :
    (processOneCurrentFile cfg master d p).added =
      d.added ++ (if (lookupKey master p.1).isNone then [p] else []) := by
  unfold processOneCurrentFile
  cases h : lookupKey master p.1 with
  | none => simp [addNewFile]
  | some m =>
    unfold processChangedFile
    by_cases hc : percentGE m.size (p.2.size - m.size) cfg.changeThreshold = true <;>
      simp [hc]

theorem processOne_removed (cfg : Config) (master : List (String × BundleEntry))
    (d : Diff) (p : String × BundleEntry) :
    (processOneCurrentFile cfg master d p).removed = d.removed := by
  unfold processOneCurrentFile
  cases h : lookupKey master p.1 with
  | none => simp [addNewFile]
  | some m =>
    unfold processChangedFile
    by_cases hc : percentGE m.size (p.2.size - m.size) cfg.changeThreshold = true <;>
      simp [hc]

theorem processOne_changed (cfg : Config) (master : List (String × BundleEntry))
    (d : Diff) (p : String × BundleEntry) :
    (processOneCurrentFile cfg master d p).changed =
      d.changed ++ (changedDecision cfg master p).toList := by
  unfold processOneCurrentFile changedDecision
  cases h : lookupKey master p.1 with
  | none => simp [addNewFile]
  | some m =>
    unfold processChangedFile
    by_cases hc : percentGE m.size (p.2.size - m.size) cfg.changeThreshold = true <;>
      simp [hc]

theorem processOne_same (cfg : Config) (master : List (String × BundleEntry))
    (d : Diff) (p : String × BundleEntry) :
    (processOneCurrentFile cfg master d p).same =
      d.same ++ (sameDecision cfg master p).toList := by
  unfold processOneCurrentFile sameDecision
  cases h : lookupKey master p.1 with
  | none => simp [addNewFile]
  | some m =>
    unfold processChangedFile
    by_cases hc : percentGE m.size (p.2.size - m.size) cfg.changeThreshold = true <;>
      simp [hc]

theorem foldl_processOne_added (cfg : Config) (master : List (String × BundleEntry))
    (current : List (String × BundleEntry)) (d : Diff) :
    (current.foldl (processOneCurrentFile cfg master) d).added =
      d.added ++ current.filter (fun p => (lookupKey master p.1).isNone) := by
  induction current generalizing d with
  | nil => simp
  | cons p ps ih =>
    rw [List.foldl_cons, ih, processOne_added, List.filter_cons]
    by_cases h : (lookupKey master p.1).isNone <;> simp [h, List.append_assoc]

theorem foldl_processOne_removed (cfg : Config) (master : List (String × BundleEntry))
    (current : List (String × BundleEntry)) (d : Diff) :
    (current.foldl (processOneCurrentFile cfg master) d).removed = d.removed := by
  induction current generalizing d with
  | nil => rfl
  | cons p ps ih => rw [List.foldl_cons, ih, processOne_removed]

theorem foldl_processOne_changed (cfg : Config) (master : List (String × BundleEntry))
    (current : List (String × BundleEntry)) (d : Diff) :
    (current.foldl (processOneCurrentFile cfg master) d).changed =
      d.changed ++ current.filterMap (changedDecision cfg master) := by
  induction current generalizing d with
  | nil => simp
  | cons p ps ih =>
    rw [List.foldl_cons, ih, processOne_changed]
    cases h : changedDecision cfg master p <;>
      simp [h, List.filterMap_cons, List.append_assoc]

theorem foldl_processOne_same (cfg : Config) (master : List (String × BundleEntry))
    (current : List (String × BundleEntry)) (d : Diff) :
    (current.foldl (processOneCurrentFile cfg master) d).same =
      d.same ++ current.filterMap (sameDecision cfg master) := by
  induction current generalizing d with
  | nil => simp
  | cons p ps ih =>
    rw [List.foldl_cons, ih, processOne_same]
    cases h : sameDecision cfg master p <;>
      simp [h, List.filterMap_cons, List.append_assoc]

theorem processOneMaster_removed (current : List (String × BundleEntry))
    (d : Diff) (p : String × BundleEntry) :
    (processOneMasterFile current d p).removed =
      d.removed ++ (if (lookupKey current p.1).isNone then [p] else []) := by
  unfold processOneMasterFile
  cases h : lookupKey current p.1 <;> simp

theorem processOneMaster_others (current : List (String × BundleEntry))
    (d : Diff) (p : String × BundleEntry) :
    (processOneMasterFile current d p).added = d.added ∧
    (processOneMasterFile current d p).changed = d.changed ∧
    (processOneMasterFile current d p).same = d.same := by
  unfold processOneMasterFile
  cases h : lookupKey current p.1 <;> simp

theorem processRemoved_removed (master current : List (String × BundleEntry)) (d : Diff) :
    (processRemovedFiles master current d).removed =
      d.removed ++ master.filter (fun p => (lookupKey current p.1).isNone) := by
  induction master generalizing d with
  | nil => simp [processRemovedFiles]
  | cons p ps ih =>
    unfold processRemovedFiles at ih ⊢
    rw [List.foldl_cons, ih, processOneMaster_removed, List.filter_cons]
    by_cases h : (lookupKey current p.1).isNone <;> simp [h, List.append_assoc]

theorem processRemoved_others (master current : List (String × BundleEntry)) (d : Diff) :
    (processRemovedFiles master current d).added = d.added ∧
    (processRemovedFiles master current d).changed = d.changed ∧
    (processRemovedFiles master current d).same = d.same := by
  induction master generalizing d with
  | nil => exact ⟨rfl, rfl, rfl⟩
  | cons p ps ih =>
    unfold processRemovedFiles at ih ⊢
    rw [List.foldl_cons]
    obtain ⟨h1, h2, h3⟩ := ih (processOneMasterFile current d p)
    obtain ⟨g1, g2, g3⟩ := processOneMaster_others current d p
    exact ⟨h1.trans g1, h2.trans g2, h3.trans g3⟩

theorem compare_added (cfg : Config) (master current : List (String × BundleEntry)) :
    (compareBundleSizes cfg master current).added =
      current.filter (fun p => (lookupKey master p.1).isNone) := by
  have h2 : (processAddedAndChangedFiles cfg master current initializeDiff).added =
      current.filter (fun p => (lookupKey master p.1).isNone) := by
    unfold processAddedAndChangedFiles
    by_cases h :
        (current.foldl (processOneCurrentFile cfg master) initializeDiff).changed.length = 0
    · rw [if_pos h, foldl_processOne_added]
      simp [initializeDiff]
    · rw [if_neg h]
      show (current.foldl (processOneCurrentFile cfg master) initializeDiff).added = _
      rw [foldl_processOne_added]
      simp [initializeDiff]
  show (processRemovedFiles master current
    (processAddedAndChangedFiles cfg master current initializeDiff)).added = _
  exact ((processRemoved_others master current _).1).trans h2

theorem compare_removed (cfg : Config) (master current : List (String × BundleEntry)) :
    (compareBundleSizes cfg master current).removed =
      master.filter (fun p => (lookupKey current p.1).isNone) := by
  have h2 : (processAddedAndChangedFiles cfg master current initializeDiff).removed = [] := by
    unfold processAddedAndChangedFiles
    by_cases h :
        (current.foldl (processOneCurrentFile cfg master) initializeDiff).changed.length = 0
    · rw [if_pos h, foldl_processOne_removed]
      rfl
    · rw [if_neg h]
      show (current.foldl (processOneCurrentFile cfg master) initializeDiff).removed = _
      rw [foldl_processOne_removed]
      rfl
  show (processRemovedFiles master current
    (processAddedAndChangedFiles cfg master current initializeDiff)).removed = _
  rw [processRemoved_removed, h2]
  rfl

theorem compare_same (cfg : Config) (master current : List (String × BundleEntry)) :
    (compareBundleSizes cfg master current).same =
      current.filterMap (sameDecision cfg master) := by
  have h2 : (processAddedAndChangedFiles cfg master current initializeDiff).same =
      current.filterMap (sameDecision cfg master) := by
    unfold processAddedAndChangedFiles
    by_cases h :
        (current.foldl (processOneCurrentFile cfg master) initializeDiff).changed.length = 0
    · rw [if_pos h, foldl_processOne_same]
      simp [initializeDiff]
    · rw [if_neg h]
      show (current.foldl (processOneCurrentFile cfg master) initializeDiff).same = _
      rw [foldl_processOne_same]
      simp [initializeDiff]
  show (processRemovedFiles master current
    (processAddedAndChangedFiles cfg master current initializeDiff)).same = _
  exact ((processRemoved_others master current _).2.2).trans h2

theorem compare_changed_perm (cfg : Config) (master current : List (String × BundleEntry)) :
    (compareBundleSizes cfg master current).changed.Perm
      (current.filterMap (changedDecision cfg master)) := by
  have hd1 : (current.foldl (processOneCurrentFile cfg master) initializeDiff).changed =
      current.filterMap (changedDecision cfg master) := by
    rw [foldl_processOne_changed]
    simp [initializeDiff]
  have h2 : (processAddedAndChangedFiles cfg master current initializeDiff).changed.Perm
      (current.filterMap (changedDecision cfg master)) := by
    unfold processAddedAndChangedFiles
    by_cases h :
        (current.foldl (processOneCurrentFile cfg master) initializeDiff).changed.length = 0
    · rw [if_pos h, hd1]
    · rw [if_neg h]
      show (sortChangedFiles _).Perm _
      rw [hd1]
      exact perm_sortDescBy _ _
  show (processRemovedFiles master current
    (processAddedAndChangedFiles cfg master current initializeDiff)).changed.Perm _
  rw [(processRemoved_others master current _).2.1]
  exact h2

theorem compare_changed_pairwise (cfg : Config)
    (master current : List (String × BundleEntry)) :
    (compareBundleSizes cfg master current).changed.Pairwise
      (fun a b => b.2.difference ≤ a.2.difference) := by
  have h2 : (processAddedAndChangedFiles cfg master current initializeDiff).changed.Pairwise
      (fun a b => b.2.difference ≤ a.2.difference) := by
    unfold processAddedAndChangedFiles
    by_cases h :
        (current.foldl (processOneCurrentFile cfg master) initializeDiff).changed.length = 0
    · rw [if_pos h, List.length_eq_zero.mp h]
      exact List.Pairwise.nil
    · rw [if_neg h]
      show (sortChangedFiles _).Pairwise _
      exact pairwise_sortDescBy _ _
  show (processRemovedFiles master current
    (processAddedAndChangedFiles cfg master current initializeDiff)).changed.Pairwise _
  rw [(processRemoved_others master current _).2.1]
  exact h2

theorem isNone_eq_not_hasKey {α : Type} (m : List (String × α)) (k : String) :
    (lookupKey m k).isNone = !(hasKey m k) := by
  unfold hasKey
  cases lookupKey m k <;> rfl

theorem hasKey_compare_added (cfg : Config) (master current : List (String × BundleEntry))
    (f : String) :
    hasKey (compareBundleSizes cfg master current).added f = true ↔
      (hasKey current f = true ∧ hasKey master f = false) := by
  rw [compare_added, hasKey_iff_exists]
  constructor
  · rintro ⟨v, hv⟩
    rw [List.mem_filter] at hv
    obtain ⟨hmem, hcond⟩ := hv
    refine ⟨(hasKey_iff_exists current f).mpr ⟨v, hmem⟩, ?_⟩
    rw [isNone_eq_not_hasKey] at hcond
    simpa using hcond
  · rintro ⟨hc, hm⟩
    obtain ⟨v, hv⟩ := (hasKey_iff_exists current f).mp hc
    refine ⟨v, List.mem_filter.mpr ⟨hv, ?_⟩⟩
    show (lookupKey master f).isNone = true
    rw [isNone_eq_not_hasKey, hm]
    rfl

theorem hasKey_compare_removed (cfg : Config) (master current : List (String × BundleEntry))
    (f : String) :
    hasKey (compareBundleSizes cfg master current).removed f = true ↔
      (hasKey master f = true ∧ hasKey current f = false) := by
  rw [compare_removed, hasKey_iff_exists]
  constructor
  · rintro ⟨v, hv⟩
    rw [List.mem_filter] at hv
    obtain ⟨hmem, hcond⟩ := hv
    refine ⟨(hasKey_iff_exists master f).mpr ⟨v, hmem⟩, ?_⟩
    rw [isNone_eq_not_hasKey] at hcond
    simpa using hcond
  · rintro ⟨hm, hc⟩
    obtain ⟨v, hv⟩ := (hasKey_iff_exists master f).mp hm
    refine ⟨v, List.mem_filter.mpr ⟨hv, ?_⟩⟩
    show (lookupKey current f).isNone = true
    rw [isNone_eq_not_hasKey, hc]
    rfl

theorem hasKey_compare_changed (cfg : Config) (master current : List (String × BundleEntry))
    (f : String) :
    hasKey (compareBundleSizes cfg master current).changed f = true ↔
      ∃ p ∈ current, p.1 = f ∧ ∃ me, lookupKey master f = some me ∧
        percentGE me.size (p.2.size - me.size) cfg.changeThreshold = true := by
  rw [hasKey_eq_of_perm (compare_changed_perm cfg master current) f, hasKey_iff_exists]
  constructor
  · rintro ⟨v, hv⟩
    rw [List.mem_filterMap] at hv
    obtain ⟨p, hp, hdec⟩ := hv
    unfold changedDecision at hdec
    cases hl : lookupKey master p.1 with
    | none => rw [hl] at hdec; cases hdec
    | some me =>
      rw [hl] at hdec
      simp only [] at hdec
      by_cases hpred : percentGE me.size (p.2.size - me.size) cfg.changeThreshold = true
      · rw [if_pos hpred] at hdec
        have hpair := Option.some.inj hdec
        have hpf : p.1 = f := congrArg Prod.fst hpair
        exact ⟨p, hp, hpf, me, hpf ▸ hl, hpred⟩
      · rw [if_neg hpred] at hdec
        cases hdec
  · rintro ⟨p, hp, hpf, me, hme, hpred⟩
    refine ⟨ChangedEntry.mk p.2.size me.size (round2 (p.2.size - me.size)),
      List.mem_filterMap.mpr ⟨p, hp, ?_⟩⟩
    unfold changedDecision
    rw [hpf, hme]
    simp only []
    rw [if_pos hpred]

theorem hasKey_compare_same (cfg : Config) (master current : List (String × BundleEntry))
    (f : String) :
    hasKey (compareBundleSizes cfg master current).same f = true ↔
      ∃ p ∈ current, p.1 = f ∧ ∃ me, lookupKey master f = some me ∧
        percentGE me.size (p.2.size - me.size) cfg.changeThreshold = false := by
  rw [compare_same, hasKey_iff_exists]
  constructor
  · rintro ⟨v, hv⟩
    rw [List.mem_filterMap] at hv
    obtain ⟨p, hp, hdec⟩ := hv
    unfold sameDecision at hdec
    cases hl : lookupKey master p.1 with
    | none => rw [hl] at hdec; cases hdec
    | some me =>
      rw [hl] at hdec
      simp only [] at hdec
      by_cases hpred : percentGE me.size (p.2.size - me.size) cfg.changeThreshold = true
      · rw [if_pos hpred] at hdec
        cases hdec
      · rw [if_neg hpred] at hdec
        have hpair := Option.some.inj hdec
        have hpf : p.1 = f := congrArg Prod.fst hpair
        exact ⟨p, hp, hpf, me, hpf ▸ hl, Bool.not_eq_true _ ▸ hpred⟩
  · rintro ⟨p, hp, hpf, me, hme, hpred⟩
    refine ⟨p.2.size, List.mem_filterMap.mpr ⟨p, hp, ?_⟩⟩
    unfold sameDecision
    rw [hpf, hme]
    simp only []
    rw [if_neg (by simp [hpred])]

theorem hasKey_compare_changed_or_same (cfg : Config)
    (master current : List (String × BundleEntry)) (f : String) :
    (hasKey (compareBundleSizes cfg master current).changed f = true ∨
      hasKey (compareBundleSizes cfg master current).same f = true) ↔
      (hasKey current f = true ∧ hasKey master f = true) := by
  rw [hasKey_compare_changed, hasKey_compare_same]
  constructor
  · rintro (⟨p, hp, hpf, me, hme, _⟩ | ⟨p, hp, hpf, me, hme, _⟩) <;>
    · have hmem : (f, p.2) ∈ current := by rw [← hpf]; exact hp
      refine ⟨(hasKey_iff_exists current f).mpr ⟨p.2, hmem⟩, ?_⟩
      unfold hasKey
      rw [hme]
      rfl
  · rintro ⟨hc, hm⟩
    obtain ⟨v, hv⟩ := (hasKey_iff_exists current f).mp hc
    unfold hasKey at hm
    cases hl : lookupKey master f with
    | none => rw [hl] at hm; cases hm
    | some me =>
      by_cases hpred : percentGE me.size (v.size - me.size) cfg.changeThreshold = true
      · exact Or.inl ⟨(f, v), hv, rfl, me, rfl, hpred⟩
      · exact Or.inr ⟨(f, v), hv, rfl, me, rfl, Bool.not_eq_true _ ▸ hpred⟩

theorem not_changed_and_same (cfg : Config) (master current : List (String × BundleEntry))
    (f : String) (hcn : (current.map Prod.fst).Nodup) :
    ¬(hasKey (compareBundleSizes cfg master current).changed f = true ∧
      hasKey (compareBundleSizes cfg master current).same f = true) := by
  rintro ⟨h1, h2⟩
  rw [hasKey_compare_changed] at h1
  rw [hasKey_compare_same] at h2
  obtain ⟨p1, hp1, hf1, me1, hme1, hpred1⟩ := h1
  obtain ⟨p2, hp2, hf2, me2, hme2, hpred2⟩ := h2
  have hpp : p1 = p2 := key_unique_of_nodup hcn hp1 hp2 (hf1.trans hf2.symm)
  subst hpp
  rw [hme1] at hme2
  have hmm : me1 = me2 := Option.some.inj hme2
  subst hmm
  rw [hpred1] at hpred2
  cases hpred2

/-! ### Policy-check characterizations -/

theorem foldl_checkOne (cfg : Config) (l : List (String × ℚ)) (acc : FailedFiles) :
    l.foldl (checkOneFile cfg) acc = FailedFiles.mk
      (acc.aboveAverageFiles ++
        ((l.filter (fun p => isAboveAverageFile cfg p.1 p.2)).map
          (fun p => FailedFile.mk p.1 p.2)))
      (acc.belowAverageFiles ++
        ((l.filter (fun p =>
            !(isAboveAverageFile cfg p.1 p.2) && isBelowAverageFile cfg p.1 p.2)).map
          (fun p => FailedFile.mk p.1 p.2))) := by
  induction l generalizing acc with
  | nil => cases acc <;> simp
  | cons p ps ih =>
    rw [List.foldl_cons, ih]
    unfold checkOneFile
    by_cases ha : isAboveAverageFile cfg p.1 p.2 = true
    · simp [ha, List.filter_cons, List.append_assoc]
    · by_cases hb : isBelowAverageFile cfg p.1 p.2 = true <;>
        simp [ha, hb, List.filter_cons, List.append_assoc]

theorem checkFileSize_above (cfg : Config) (d : Diff) :
    (checkFileSize cfg d).aboveAverageFiles =
      ((extractFileSizes d).filter (fun p => isAboveAverageFile cfg p.1 p.2)).map
        (fun p => FailedFile.mk p.1 p.2) := by
  unfold checkFileSize
  rw [foldl_checkOne]
  simp

theorem checkFileSize_below (cfg : Config) (d : Diff) :
    (checkFileSize cfg d).belowAverageFiles =
      ((extractFileSizes d).filter (fun p =>
          !(isAboveAverageFile cfg p.1 p.2) && isBelowAverageFile cfg p.1 p.2)).map
        (fun p => FailedFile.mk p.1 p.2) := by
  unfold checkFileSize
  rw [foldl_checkOne]
  simp

theorem any_map_general {α β : Type} (f : α → β) (l : List α) (p : β → Bool) :
    (l.map f).any p = l.any (fun x => p (f x)) := by
  induction l with
  | nil => rfl
  | cons x xs ih => simp [List.map_cons, List.any_cons, ih]

theorem hasKey_foldl_setKey {α β : Type} (kf : α → String) (vf : α → β)
    (l : List α) (k : String) :
    hasKey (l.foldl (fun m x => setKey m (kf x) (vf x)) []) k =
      l.any (fun x => decide (kf x = k)) := by
  unfold hasKey
  rw [lookupKey_foldl_setKey, lookupKey_nil]
  cases hf : l.reverse.find? (fun x => decide (kf x = k)) with
  | none =>
    have hnone : ∀ x ∈ l, ¬ (decide (kf x = k) = true) :=
      fun x hx => (List.find?_eq_none.mp hf) x (List.mem_reverse.mpr hx)
    refine Eq.symm ?_
    show l.any (fun x => decide (kf x = k)) = false
    exact List.any_eq_false.mpr hnone
  | some x =>
    have hmem : x ∈ l := List.mem_reverse.mp (List.mem_of_find?_eq_some hf)
    have hpred := List.find?_some hf
    refine Eq.symm ?_
    show l.any (fun x => decide (kf x = k)) = true
    exact List.any_eq_true.mpr ⟨x, hmem, hpred⟩

theorem hasKey_extractFileSizes (d : Diff) (k : String) :
    hasKey (extractFileSizes d) k = (hasKey d.added k || hasKey d.changed k) := by
  unfold extractFileSizes
  rw [hasKey_foldl_setKey (fun p : String × ℚ => p.1) (fun p : String × ℚ => p.2)]
  rw [List.any_append, any_map_general, any_map_general]
  rw [any_eq_hasKey, any_eq_hasKey]

/-! ### Normalization length lemmas -/

theorem stripHashSuffix_shrinks (sep : Char) (minLen : Nat) (s : List Char) :
    stripHashSuffix sep minLen s = s ∨
      (stripHashSuffix sep minLen s).length < s.length := by
  unfold stripHashSuffix
  split
  next c1 c2 c3 rest hrev =>
    split
    next hcond =>
      split
      next d tail hdrop =>
        split
        next hcond2 =>
          right
          have h1 : s.length = rest.length + 3 := by
            have h := congrArg List.length hrev
            rw [List.length_reverse] at h
            simpa using h
          have h2 : rest.length = (rest.takeWhile isHexChar).length + (tail.length + 1) := by
            have h := congrArg List.length (List.takeWhile_append_dropWhile isHexChar rest)
            rw [List.length_append, hdrop] at h
            simpa using h.symm
          have h3 : (tail.reverse ++ ['.', 'j', 's']).length = tail.length + 3 := by
            simp [List.length_append, List.length_reverse]
          omega
        next => left; rfl
      next hdrop => left; rfl
    next hcond => left; rfl
  all_goals left; rfl

theorem stripChunkSuffix_shrinks (s : List Char) :
    stripChunkSuffix s = s ∨ (stripChunkSuffix s).length < s.length := by
  unfold stripChunkSuffix
  split
  next c1 c2 c3 c4 c5 c6 c7 c8 c9 tail hrev =>
    split
    next hcond =>
      right
      have h1 : s.length = tail.length + 9 := by
        have h := congrArg List.length hrev
        rw [List.length_reverse] at h
        simpa using h
      have h3 : (tail.reverse ++ ['.', 'j', 's']).length = tail.length + 3 := by
        simp [List.length_append, List.length_reverse]
      omega
    next => left; rfl
  all_goals left; rfl

theorem normalizeChars_shrinks (s : List Char) :
    normalizeChars s = s ∨ (normalizeChars s).length < s.length := by
  unfold normalizeChars
  rcases stripHashSuffix_shrinks '.' 8 s with h1 | h1
  · rw [h1]
    rcases stripHashSuffix_shrinks '-' 10 s with h2 | h2
    · rw [h2]
      exact stripChunkSuffix_shrinks s
    · rcases stripChunkSuffix_shrinks (stripHashSuffix '-' 10 s) with h3 | h3
      · rw [h3]
        right
        exact h2
      · right
        exact h3.trans h2
  · rcases stripHashSuffix_shrinks '-' 10 (stripHashSuffix '.' 8 s) with h2 | h2
    · rw [h2]
      rcases stripChunkSuffix_shrinks (stripHashSuffix '.' 8 s) with h3 | h3
      · rw [h3]
        right
        exact h1
      · right
        exact h3.trans h1
    · rcases stripChunkSuffix_shrinks
          (stripHashSuffix '-' 10 (stripHashSuffix '.' 8 s)) with h3 | h3
      · rw [h3]
        right
        exact h2.trans h1
      · right
        exact h3.trans (h2.trans h1)

/-! ### Claim theorems -/

/-- C6 (counterexample): the normalization of `generateBundleStats` is not
idempotent.  On `a.deadbeef.chunk.js` the first pass only strips
`.chunk.js` (the hash rule does not fire because `chunk` is not
hexadecimal), yielding `a.deadbeef.js`; a second pass then strips the
newly-exposed content hash `deadbeef`, yielding `a.js`. -/
theorem normalizeName_not_idempotent :
    normalizeName (normalizeName "a.deadbeef.chunk.js") ≠
      normalizeName "a.deadbeef.chunk.js" := by decide

/-- C6 (amended): a single application of the three strip rules is not
idempotent in general, because stripping one suffix can expose another
strip-able suffix underneath; instead, each application of `normalizeName`
either fixes the name or strictly shortens it, so repeated application
reaches a fixed point. -/
theorem normalizeName_fix_or_shrink (n : String) :
    normalizeName n = n ∨ (normalizeName n).length < n.length := by
  rcases normalizeChars_shrinks n.data with h | h
  · left
    unfold normalizeName
    rw [h]
  · right
    exact h

/-- C9: in `generateBundleStats`, the output entry for a canonical name `c`
holds the rounded KB size of the last processed file whose name normalizes
to `c` (last-write-wins on collisions; `none` when no file normalizes to
`c`).  The descending-size sort applied before writing does not change any
binding. -/
theorem generateBundleStats_last_write_wins (files : List (String × Nat)) (c : String) :
    lookupKey (generateBundleStats files) c =
      (files.reverse.find? (fun p => decide (normalizeName p.1 = c))).map
        (fun p => BundleEntry.mk (kbSize p.2)) := by
  have hnd : ((buildStats files).map Prod.fst).Nodup :=
    nodup_keys_foldl_setKey _ _ files [] (by simp)
  have hperm : (buildStats files).Perm (generateBundleStats files) := by
    unfold generateBundleStats
    exact (perm_sortDescBy (fun p => p.2.size) (buildStats files)).symm
  rw [← lookupKey_eq_of_perm hperm hnd c]
  unfold buildStats
  rw [lookupKey_foldl_setKey (fun p : String × Nat => normalizeName p.1)
    (fun p : String × Nat => BundleEntry.mk (kbSize p.2)) files [] c]
  rw [lookupKey_nil]
  cases h : files.reverse.find? (fun p => decide (normalizeName p.1 = c)) <;>
    simp [h, Option.or]

/-- C2: the verdict of `isSuccess` is pass exactly when both failed-file
lists are empty, and `writeFailureFlag` writes the failure marker file
exactly when the verdict is not pass. -/
theorem verdict_pass_iff (cfg : Config) (ff : FailedFiles) :
    (isSuccess ff = true ↔ (ff.aboveAverageFiles = [] ∧ ff.belowAverageFiles = [])) ∧
    ((writeFailureFlag cfg ff).isSome = true ↔ ¬ isSuccess ff = true) := by
  constructor
  · unfold isSuccess
    rw [Bool.and_eq_true, decide_eq_true_eq, decide_eq_true_eq,
      List.length_eq_zero, List.length_eq_zero]
    exact and_comm
  · unfold writeFailureFlag
    by_cases h : isSuccess ff = true <;> simp [h]

/-- C10: because the constructor resolves every option with `||`, passing a
falsy numeric option selects the default: `changeThreshold: 0` yields 5,
`splittingUpperLimit: 0` yields 250, `splittingLowerLimit: 0` yields 20,
and no choice of options can produce a zero threshold or zero limit. -/
theorem config_zero_options_defaulted :
    (mkConfig { changeThreshold := some 0 }).changeThreshold = 5 ∧
    (mkConfig { splittingUpperLimit := some 0 }).splittingUpperLimit = 250 ∧
    (mkConfig { splittingLowerLimit := some 0 }).splittingLowerLimit = 20 ∧
    (∀ opts : Options, (mkConfig opts).changeThreshold ≠ 0 ∧
      (mkConfig opts).splittingUpperLimit ≠ 0 ∧
      (mkConfig opts).splittingLowerLimit ≠ 0) := by
  have hres : ∀ (o : Option ℚ) (dflt : ℚ), dflt ≠ 0 → resolveNum o dflt ≠ 0 := by
    intro o dflt hd
    cases o with
    | none => simpa [resolveNum] using hd
    | some v =>
      by_cases hv : v = 0
      · simpa [resolveNum, hv] using hd
      · simpa [resolveNum, hv] using hv
  refine ⟨by norm_num [mkConfig, resolveNum], by norm_num [mkConfig, resolveNum],
    by norm_num [mkConfig, resolveNum], ?_⟩
  intro opts
  exact ⟨hres _ 5 (by norm_num), hres _ 250 (by norm_num), hres _ 20 (by norm_num)⟩

/-- C5: behaviour of the code at a matched file pair with zero baseline
size.  `processChangedFile` does not special-case the zero denominator: it
computes `sizeDiff / 0`, which in JS is `Infinity` when the sizes differ
(so the file is classified `changed` through a non-finite percentage) and
`NaN` when both sizes are zero (so the `>=` test is false and the file is
classified `same`).  This evaluation exhibits the division-by-zero path the
claim says cannot happen. -/
theorem zeroBaseline_division_behavior :
    (compareBundleSizes cfgDefault [("a.js", BundleEntry.mk 0)]
      [("a.js", BundleEntry.mk 1)]).changed = [("a.js", ChangedEntry.mk 1 0 1)] ∧
    (compareBundleSizes cfgDefault [("a.js", BundleEntry.mk 0)]
      [("a.js", BundleEntry.mk 0)]).same = [("a.js", (0 : ℚ))] := by
  refine ⟨?_, ?_⟩ <;>
    norm_num [compareBundleSizes, processAddedAndChangedFiles, processOneCurrentFile,
      processChangedFile, processRemovedFiles, processOneMasterFile, finalizeDiff,
      initializeDiff, addNewFile, lookupKey, List.find?, percentGE, sortChangedFiles, sortDescBy,
      insertDescBy, cfgDefault, mkConfig, resolveNum, round2, jsRound, round_eq, setKey]

/-- C1: for maps with unique keys (as JS object keys are), every filename
present in the baseline or the current map lands in exactly one of the four
buckets of `compareBundleSizes`: `added` holds exactly the names only in
current, `removed` exactly the names only in baseline, and a name in both
lands in exactly one of `changed` and `same`. -/
theorem compareBundleSizes_partition (cfg : Config)
    (master current : List (String × BundleEntry))
    (hm : (master.map Prod.fst).Nodup) (hc : (current.map Prod.fst).Nodup)
    (f : String) (hf : hasKey master f = true ∨ hasKey current f = true) :
    ((hasKey (compareBundleSizes cfg master current).added f).toNat +
     (hasKey (compareBundleSizes cfg master current).removed f).toNat +
     (hasKey (compareBundleSizes cfg master current).changed f).toNat +
     (hasKey (compareBundleSizes cfg master current).same f).toNat = 1) ∧
    (hasKey (compareBundleSizes cfg master current).added f = true ↔
      (hasKey current f = true ∧ hasKey master f = false)) ∧
    (hasKey (compareBundleSizes cfg master current).removed f = true ↔
      (hasKey master f = true ∧ hasKey current f = false)) := by
  have hA := hasKey_compare_added cfg master current f
  have hR := hasKey_compare_removed cfg master current f
  have hCS := hasKey_compare_changed_or_same cfg master current f
  have hNS := not_changed_and_same cfg master current f hc
  refine ⟨?_, hA, hR⟩
  cases hcur : hasKey current f <;> cases hmas : hasKey master f
  · simp [hmas, hcur] at hf
  · have ha : hasKey (compareBundleSizes cfg master current).added f = false := by
      rw [Bool.eq_false_iff]
      intro hh
      exact absurd (hA.mp hh).1 (by simp [hcur])
    have hr : hasKey (compareBundleSizes cfg master current).removed f = true :=
      hR.mpr ⟨hmas, hcur⟩
    have hch : hasKey (compareBundleSizes cfg master current).changed f = false := by
      rw [Bool.eq_false_iff]
      intro hh
      exact absurd ((hCS.mp (Or.inl hh)).1) (by simp [hcur])
    have hsame : hasKey (compareBundleSizes cfg master current).same f = false := by
      rw [Bool.eq_false_iff]
      intro hh
      exact absurd ((hCS.mp (Or.inr hh)).1) (by simp [hcur])
    rw [ha, hr, hch, hsame]
    rfl
  · have ha : hasKey (compareBundleSizes cfg master current).added f = true :=
      hA.mpr ⟨hcur, hmas⟩
    have hr : hasKey (compareBundleSizes cfg master current).removed f = false := by
      rw [Bool.eq_false_iff]
      intro hh
      exact absurd (hR.mp hh).1 (by simp [hmas])
    have hch : hasKey (compareBundleSizes cfg master current).changed f = false := by
      rw [Bool.eq_false_iff]
      intro hh
      exact absurd ((hCS.mp (Or.inl hh)).2) (by simp [hmas])
    have hsame : hasKey (compareBundleSizes cfg master current).same f = false := by
      rw [Bool.eq_false_iff]
      intro hh
      exact absurd ((hCS.mp (Or.inr hh)).2) (by simp [hmas])
    rw [ha, hr, hch, hsame]
    rfl
  · have ha : hasKey (compareBundleSizes cfg master current).added f = false := by
      rw [Bool.eq_false_iff]
      intro hh
      exact absurd (hA.mp hh).2 (by simp [hmas])
    have hr : hasKey (compareBundleSizes cfg master current).removed f = false := by
      rw [Bool.eq_false_iff]
      intro hh
      exact absurd (hR.mp hh).2 (by simp [hcur])
    rcases hCS.mpr ⟨hcur, hmas⟩ with hch | hsame
    · have hsame : hasKey (compareBundleSizes cfg master current).same f = false := by
        rw [Bool.eq_false_iff]
        intro hh
        exact hNS ⟨hch, hh⟩
      rw [ha, hr, hch, hsame]
      rfl
    · have hch : hasKey (compareBundleSizes cfg master current).changed f = false := by
        rw [Bool.eq_false_iff]
        intro hh
        exact hNS ⟨hh, hsame⟩
      rw [ha, hr, hch, hsame]
      rfl

/-- Witness for C1 at concrete maps: baseline has `a.js` and `b.js`,
current has `a.js` and `c.js`; the name `a.js` is in both. -/
theorem compareBundleSizes_partition_witness :
    ((masterEx.map Prod.fst).Nodup ∧ (currentEx.map Prod.fst).Nodup ∧
      hasKey masterEx "a.js" = true) ∧
    (((hasKey (compareBundleSizes cfgDefault masterEx currentEx).added "a.js").toNat +
      (hasKey (compareBundleSizes cfgDefault masterEx currentEx).removed "a.js").toNat +
      (hasKey (compareBundleSizes cfgDefault masterEx currentEx).changed "a.js").toNat +
      (hasKey (compareBundleSizes cfgDefault masterEx currentEx).same "a.js").toNat = 1) ∧
     (hasKey (compareBundleSizes cfgDefault masterEx currentEx).added "a.js" = true ↔
       (hasKey currentEx "a.js" = true ∧ hasKey masterEx "a.js" = false)) ∧
     (hasKey (compareBundleSizes cfgDefault masterEx currentEx).removed "a.js" = true ↔
       (hasKey masterEx "a.js" = true ∧ hasKey currentEx "a.js" = false))) :=
  ⟨⟨by decide, by decide, by decide⟩,
    compareBundleSizes_partition cfgDefault masterEx currentEx (by decide) (by decide)
      "a.js" (Or.inl (by decide))⟩

/-- C3: for a matched file pair with nonzero baseline size, the file is
classified `changed` exactly when the absolute percentage change reaches
the threshold (the boundary is inclusive); when changed, the stored
`difference` is the size difference rounded to two decimals, `countChanged`
is incremented, and the signed difference feeds `sizeIncrease` when
positive, else its absolute value feeds `sizeDecrease`; otherwise the file
is classified `same` with the bare current size. -/
theorem processChangedFile_spec (cfg : Config) (d : Diff) (file : String)
    (currentData masterData : BundleEntry) (h : masterData.size ≠ 0) :
    (cfg.changeThreshold ≤
        |(currentData.size - masterData.size) / masterData.size * 100| →
      processChangedFile cfg d file currentData masterData =
        { d with
          changed := d.changed ++ [(file, ChangedEntry.mk currentData.size
            masterData.size (round2 (currentData.size - masterData.size)))]
          summary := { d.summary with
            countChanged := d.summary.countChanged + 1
            sizeIncrease :=
              if 0 < currentData.size - masterData.size then
                d.summary.sizeIncrease + (currentData.size - masterData.size)
              else d.summary.sizeIncrease
            sizeDecrease :=
              if 0 < currentData.size - masterData.size then d.summary.sizeDecrease
              else d.summary.sizeDecrease +
                |currentData.size - masterData.size| } }) ∧
    (|(currentData.size - masterData.size) / masterData.size * 100| <
        cfg.changeThreshold →
      processChangedFile cfg d file currentData masterData =
        { d with same := d.same ++ [(file, currentData.size)] }) := by
  have hpge : percentGE masterData.size (currentData.size - masterData.size)
      cfg.changeThreshold =
      decide (cfg.changeThreshold ≤
        |(currentData.size - masterData.size) / masterData.size * 100|) := by
    unfold percentGE
    rw [if_neg h]
  constructor
  · intro hle
    simp only [processChangedFile]
    rw [hpge, if_pos (decide_eq_true hle)]
  · intro hlt
    simp only [processChangedFile]
    rw [hpge, decide_eq_false (not_le.mpr hlt)]
    simp

/-- Witness for C3 at a concrete pair: baseline 100 KB, current 106 KB,
threshold 5 percent; the 6 percent change is classified changed. -/
theorem processChangedFile_spec_witness :
    ((BundleEntry.mk (100 : ℚ)).size ≠ 0) ∧
    processChangedFile cfgDefault initializeDiff "a.js" (BundleEntry.mk 106)
      (BundleEntry.mk 100) =
      { initializeDiff with
        changed := [("a.js", ChangedEntry.mk 106 100 6)]
        summary := { initializeDiff.summary with countChanged := 1, sizeIncrease := 6 } } := by
  have h0 : (BundleEntry.mk (100 : ℚ)).size ≠ 0 := by norm_num
  have hle : cfgDefault.changeThreshold ≤
      |((BundleEntry.mk (106 : ℚ)).size - (BundleEntry.mk (100 : ℚ)).size) /
        (BundleEntry.mk (100 : ℚ)).size * 100| := by
    norm_num [cfgDefault, mkConfig, resolveNum]
  have h := (processChangedFile_spec cfgDefault initializeDiff "a.js"
    (BundleEntry.mk 106) (BundleEntry.mk 100) h0).1 hle
  refine ⟨h0, h.trans ?_⟩
  norm_num [initializeDiff, round2, jsRound, round_eq]

/-- C4 (counterexample): a run of `compareBundleSizes` in which a 50 KB
decrease and a 1 KB increase both land in `changed` orders the 1 KB
increase first, because `sortChangedFiles` sorts by descending signed
`difference`, not by descending absolute `difference` as the claim
states. -/
theorem changed_order_counterexample :
    (compareBundleSizes cfgDefault
        [("dec.js", BundleEntry.mk 100), ("inc.js", BundleEntry.mk 10)]
        [("dec.js", BundleEntry.mk 50), ("inc.js", BundleEntry.mk 11)]).changed =
      [("inc.js", ChangedEntry.mk 11 10 1), ("dec.js", ChangedEntry.mk 50 100 (-50))] ∧
    ¬ sortedByAbsDifferenceDesc (compareBundleSizes cfgDefault
        [("dec.js", BundleEntry.mk 100), ("inc.js", BundleEntry.mk 10)]
        [("dec.js", BundleEntry.mk 50), ("inc.js", BundleEntry.mk 11)]).changed := by
  have h : (compareBundleSizes cfgDefault
      [("dec.js", BundleEntry.mk 100), ("inc.js", BundleEntry.mk 10)]
      [("dec.js", BundleEntry.mk 50), ("inc.js", BundleEntry.mk 11)]).changed =
      [("inc.js", ChangedEntry.mk 11 10 1), ("dec.js", ChangedEntry.mk 50 100 (-50))] := by
    simp only [compareBundleSizes, processAddedAndChangedFiles, processOneCurrentFile,
      processChangedFile, processRemovedFiles, processOneMasterFile, finalizeDiff,
      initializeDiff, addNewFile, lookupKey, List.find?, percentGE, sortChangedFiles,
      sortDescBy, insertDescBy, cfgDefault, mkConfig, resolveNum, round2, jsRound, setKey,
      List.foldl_cons, List.foldl_nil, List.foldr_cons, List.foldr_nil, String.reduceEq,
      decide_True, decide_False, Option.map_some, Option.map_none, decide_not]
    norm_num [round_eq, insertDescBy]
  refine ⟨h, ?_⟩
  rw [h]
  unfold sortedByAbsDifferenceDesc
  intro hpair
  rw [List.pairwise_cons] at hpair
  have := hpair.1 ("dec.js", ChangedEntry.mk 50 100 (-50)) (by simp)
  norm_num at this

/-- C4 (amended): in every `DiffResult` produced by `compareBundleSizes`,
the `changed` entries are ordered by descending signed `difference` (an
increase of 1 KB sorts before a decrease of 50 KB). -/
theorem changed_sorted_by_difference (cfg : Config)
    (master current : List (String × BundleEntry)) :
    (compareBundleSizes cfg master current).changed.Pairwise
      (fun a b => b.2.difference ≤ a.2.difference) :=
  compare_changed_pairwise cfg master current

/-- C7: the size-budget policies of `checkFileSize` range only over the
added entries and the changed entries (current sizes): any name in either
failed-file list is a key of `added` or `changed` of the diff, and is a key
of neither `removed` nor `same`. -/
theorem checkFileSize_scope (cfg : Config) (master current : List (String × BundleEntry))
    (hc : (current.map Prod.fst).Nodup) (name : String)
    (h : name ∈ ((checkFileSize cfg (compareBundleSizes cfg master current)).aboveAverageFiles.map
          FailedFile.fileName) ∨
        name ∈ ((checkFileSize cfg (compareBundleSizes cfg master current)).belowAverageFiles.map
          FailedFile.fileName)) :
    (hasKey (compareBundleSizes cfg master current).added name = true ∨
     hasKey (compareBundleSizes cfg master current).changed name = true) ∧
    hasKey (compareBundleSizes cfg master current).removed name = false ∧
    hasKey (compareBundleSizes cfg master current).same name = false := by
  have hfiles : hasKey (extractFileSizes (compareBundleSizes cfg master current)) name = true := by
    rcases h with h | h
    · rw [checkFileSize_above] at h
      rw [List.mem_map] at h
      obtain ⟨ff, hff, hffn⟩ := h
      rw [List.mem_map] at hff
      obtain ⟨p, hp, hpf⟩ := hff
      rw [List.mem_filter] at hp
      have hpn : p.1 = name := by rw [← hffn, ← hpf]
      exact (hasKey_iff_exists _ name).mpr ⟨p.2, by rw [← hpn]; exact hp.1⟩
    · rw [checkFileSize_below] at h
      rw [List.mem_map] at h
      obtain ⟨ff, hff, hffn⟩ := h
      rw [List.mem_map] at hff
      obtain ⟨p, hp, hpf⟩ := hff
      rw [List.mem_filter] at hp
      have hpn : p.1 = name := by rw [← hffn, ← hpf]
      exact (hasKey_iff_exists _ name).mpr ⟨p.2, by rw [← hpn]; exact hp.1⟩
  rw [hasKey_extractFileSizes] at hfiles
  have hac := hfiles
  rw [Bool.or_eq_true] at hac
  have hcur : hasKey current name = true := by
    rcases hac with hadd | hch
    · exact ((hasKey_compare_added cfg master current name).mp hadd).1
    · exact ((hasKey_compare_changed_or_same cfg master current name).mp (Or.inl hch)).1
  refine ⟨hac, ?_, ?_⟩
  · rw [Bool.eq_false_iff]
    intro hh
    have hrem := (hasKey_compare_removed cfg master current name).mp hh
    rw [hrem.2] at hcur
    cases hcur
  · rw [Bool.eq_false_iff]
    intro hh
    have hmas : hasKey master name = true :=
      ((hasKey_compare_changed_or_same cfg master current name).mp (Or.inr hh)).2
    rcases hac with hadd | hch
    · have := ((hasKey_compare_added cfg master current name).mp hadd).2
      rw [this] at hmas
      cases hmas
    · exact not_changed_and_same cfg master current name hc ⟨hch, hh⟩

/-- Witness for C7: with an empty baseline and a current map holding only
the added file `c.js` (300 KB, over the 250 KB default limit), `c.js`
appears in the above-average list, is a key of `added`, and is a key of
neither `removed` nor `same`. -/
theorem checkFileSize_scope_witness :
    ((([("c.js", BundleEntry.mk 300)] : List (String × BundleEntry)).map Prod.fst).Nodup ∧
      "c.js" ∈ ((checkFileSize cfgDefault (compareBundleSizes cfgDefault []
        [("c.js", BundleEntry.mk 300)])).aboveAverageFiles.map FailedFile.fileName)) ∧
    ((hasKey (compareBundleSizes cfgDefault [] [("c.js", BundleEntry.mk 300)]).added
        "c.js" = true ∨
      hasKey (compareBundleSizes cfgDefault [] [("c.js", BundleEntry.mk 300)]).changed
        "c.js" = true) ∧
     hasKey (compareBundleSizes cfgDefault [] [("c.js", BundleEntry.mk 300)]).removed
       "c.js" = false ∧
     hasKey (compareBundleSizes cfgDefault [] [("c.js", BundleEntry.mk 300)]).same
       "c.js" = false) := by
  have hmem : "c.js" ∈ ((checkFileSize cfgDefault (compareBundleSizes cfgDefault []
      [("c.js", BundleEntry.mk 300)])).aboveAverageFiles.map FailedFile.fileName) := by
    norm_num [checkFileSize, checkOneFile, extractFileSizes, isAboveAverageFile,
      isBelowAverageFile, strContains, containsSeq, startsWithSeq, compareBundleSizes,
      processAddedAndChangedFiles, processOneCurrentFile, processChangedFile,
      processRemovedFiles, processOneMasterFile, finalizeDiff, initializeDiff,
      addNewFile, lookupKey, List.find?, percentGE, sortChangedFiles, sortDescBy,
      insertDescBy, cfgDefault, mkConfig, resolveNum, resolveList, round2, jsRound,
      round_eq, setKey]
  exact ⟨⟨by decide, hmem⟩,
    checkFileSize_scope cfgDefault [] [("c.js", BundleEntry.mk 300)] (by decide)
      "c.js" (Or.inl hmem)⟩

/-- C8: for every entry of the extracted size map, membership in the two
failed-file lists is characterized exactly as the claim states: above iff
over the upper limit and not allowlisted; below iff not above, under the
lower limit, not allowlisted, and the name does not contain `resolver`;
and never both (the above check takes precedence). -/
theorem checkFileSize_membership (cfg : Config) (d : Diff) (p : String × ℚ)
    (hp : p ∈ extractFileSizes d) :
    ((FailedFile.mk p.1 p.2 ∈ (checkFileSize cfg d).aboveAverageFiles) ↔
      (cfg.splittingUpperLimit < p.2 ∧ ¬ p.1 ∈ cfg.aboveAverageFiles)) ∧
    ((FailedFile.mk p.1 p.2 ∈ (checkFileSize cfg d).belowAverageFiles) ↔
      (¬ (FailedFile.mk p.1 p.2 ∈ (checkFileSize cfg d).aboveAverageFiles) ∧
        p.2 < cfg.splittingLowerLimit ∧ ¬ p.1 ∈ cfg.belowAverageFiles ∧
        strContains p.1 "resolver" = false)) ∧
    ¬ ((FailedFile.mk p.1 p.2 ∈ (checkFileSize cfg d).aboveAverageFiles) ∧
      (FailedFile.mk p.1 p.2 ∈ (checkFileSize cfg d).belowAverageFiles)) := by
  have habove : (FailedFile.mk p.1 p.2 ∈ (checkFileSize cfg d).aboveAverageFiles) ↔
      isAboveAverageFile cfg p.1 p.2 = true := by
    rw [checkFileSize_above]
    constructor
    · intro hmem
      rw [List.mem_map] at hmem
      obtain ⟨q, hq, hqe⟩ := hmem
      rw [List.mem_filter] at hq
      have hq1 : q.1 = p.1 := congrArg FailedFile.fileName hqe
      have hq2 : q.2 = p.2 := congrArg FailedFile.fileSize hqe
      have hqp : q = p := Prod.ext hq1 hq2
      rw [← hqp]
      exact hq.2
    · intro hA
      rw [List.mem_map]
      exact ⟨p, List.mem_filter.mpr ⟨hp, hA⟩, rfl⟩
  have hbelow : (FailedFile.mk p.1 p.2 ∈ (checkFileSize cfg d).belowAverageFiles) ↔
      (!(isAboveAverageFile cfg p.1 p.2) && isBelowAverageFile cfg p.1 p.2) = true := by
    rw [checkFileSize_below]
    constructor
    · intro hmem
      rw [List.mem_map] at hmem
      obtain ⟨q, hq, hqe⟩ := hmem
      rw [List.mem_filter] at hq
      have hq1 : q.1 = p.1 := congrArg FailedFile.fileName hqe
      have hq2 : q.2 = p.2 := congrArg FailedFile.fileSize hqe
      have hqp : q = p := Prod.ext hq1 hq2
      rw [← hqp]
      exact hq.2
    · intro hB
      rw [List.mem_map]
      exact ⟨p, List.mem_filter.mpr ⟨hp, hB⟩, rfl⟩
  refine ⟨?_, ?_, ?_⟩
  · rw [habove]
    simp [isAboveAverageFile, List.any_eq_true]
    intro _
    constructor
    · intro hall hmem
      exact hall p.1 hmem rfl
    · intro hnot x hx he
      exact hnot (he ▸ hx)
  · rw [hbelow, habove]
    simp [isBelowAverageFile, List.any_eq_true, and_assoc]
    intro _ _ _
    constructor
    · intro hall hmem
      exact hall p.1 hmem rfl
    · intro hnot x hx he
      exact hnot (he ▸ hx)
  · rintro ⟨h1, h2⟩
    rw [habove] at h1
    rw [hbelow] at h2
    rw [h1] at h2
    simp at h2

/-- Witness for C8 at a concrete diff: `diffEx` has one added 300 KB file
`c.js`, which is over the default 250 KB limit and not allowlisted. -/
theorem checkFileSize_membership_witness :
    (("c.js", (300 : ℚ)) ∈ extractFileSizes diffEx) ∧
    (((FailedFile.mk ("c.js", (300 : ℚ)).1 ("c.js", (300 : ℚ)).2 ∈
        (checkFileSize cfgDefault diffEx).aboveAverageFiles) ↔
      (cfgDefault.splittingUpperLimit < ("c.js", (300 : ℚ)).2 ∧
        ¬ ("c.js", (300 : ℚ)).1 ∈ cfgDefault.aboveAverageFiles)) ∧
     ((FailedFile.mk ("c.js", (300 : ℚ)).1 ("c.js", (300 : ℚ)).2 ∈
        (checkFileSize cfgDefault diffEx).belowAverageFiles) ↔
      (¬ (FailedFile.mk ("c.js", (300 : ℚ)).1 ("c.js", (300 : ℚ)).2 ∈
          (checkFileSize cfgDefault diffEx).aboveAverageFiles) ∧
        ("c.js", (300 : ℚ)).2 < cfgDefault.splittingLowerLimit ∧
        ¬ ("c.js", (300 : ℚ)).1 ∈ cfgDefault.belowAverageFiles ∧
        strContains ("c.js", (300 : ℚ)).1 "resolver" = false)) ∧
     ¬ ((FailedFile.mk ("c.js", (300 : ℚ)).1 ("c.js", (300 : ℚ)).2 ∈
        (checkFileSize cfgDefault diffEx).aboveAverageFiles) ∧
       (FailedFile.mk ("c.js", (300 : ℚ)).1 ("c.js", (300 : ℚ)).2 ∈
        (checkFileSize cfgDefault diffEx).belowAverageFiles))) := by
  have hp : ("c.js", (300 : ℚ)) ∈ extractFileSizes diffEx := by
    norm_num [extractFileSizes, diffEx, setKey]
  exact ⟨hp, checkFileSize_membership cfgDefault diffEx ("c.js", (300 : ℚ)) hp⟩

end BundleDiff
